import Mathlib

/-!
Verification development for the `claude` session-discovery package
(`internal/claude/sessions.go`).  The Go code is shallowly embedded:
strings are lists of characters, per-line JSON records are an inductive
`Json` value, filesystem access is an explicit tree of directory/file
entries, and `time.Parse(time.RFC3339, ·)` — an external library call —
is an abstract parameter `tparse : Str → Option Nat` where `0` plays the
role of Go's zero `time.Time` and `none` a parse error.
-/

namespace Gastown

set_option maxRecDepth 400000

/-- Go strings are modelled as lists of characters. -/
abbrev Str := List Char

/-- `strings.Contains(s, sub)`: `sub` occurs as a contiguous substring of `s`. -/
def strContains (s sub : Str) : Bool :=
  (List.range (s.length + 1)).any (fun i => sub.isPrefixOf (s.drop i))

/-- `strings.HasSuffix(s, suffix)`. -/
def strHasSuffix (s sub : Str) : Bool := sub.isSuffixOf s

/-- `strings.HasPrefix(s, p)`. -/
def strStartsWith (s sub : Str) : Bool := sub.isPrefixOf s

/-- `strings.TrimSuffix(s, suffix)`: drop the suffix when present. -/
def strTrimSuffix (s sub : Str) : Str :=
  if strHasSuffix s sub then s.take (s.length - sub.length) else s

/-- Whitespace as recognized by `strings.TrimSpace` / `unicode.IsSpace`
(the characters relevant to this code base: ASCII whitespace plus the
two Latin-1 spaces). -/
def isGoSpace (c : Char) : Bool :=
  c = ' ' || c = '\t' || c = '\n' || c = '\x0b' || c = '\x0c' || c = '\r' ||
  c = '\u0085' || c = ' '

/-- `strings.TrimSpace`: drop leading and trailing whitespace. -/
def trimSpace (s : Str) : Str :=
  ((s.dropWhile isGoSpace).reverse.dropWhile isGoSpace).reverse

/-- `decodePath` (sessions.go): converts Claude's path-encoded directory
names back to paths.  A leading dash becomes `/`, then every remaining
dash becomes `/` (`strings.ReplaceAll` with a one-character pattern is a
character-wise map). -/
def decodePath (encoded : Str) : Str :=
  let e := if strStartsWith encoded ['-'] = true then '/' :: encoded.drop 1 else encoded
  e.map (fun c => if c = '-' then '/' else c)

/-! ### A small backtracking regular-expression engine

`gasTownPattern` is a Go `regexp` (RE2 syntax, Perl-style leftmost-first
match semantics).  The fragment of the language the pattern uses is
embedded directly: literals, character classes, concatenation,
greedy/lazy repetition, greedy option, capture groups and the
end-of-text anchor `$`.  The matcher is a continuation-passing
backtracking interpreter whose alternative order realizes
leftmost-first semantics; `fuel` only bounds the recursion and is chosen
large enough at every use site. -/

/-- Regular-expression abstract syntax (the fragment used by
`gasTownPattern`). -/
inductive Re where
  /-- the empty regex (matches the empty string) -/
  | eps : Re
  /-- a literal character -/
  | lit (c : Char) : Re
  /-- a character class: matches `c` iff `(c ∈ cs) ≠ neg` -/
  | cls (neg : Bool) (cs : List Char) : Re
  /-- concatenation -/
  | seq (a b : Re) : Re
  /-- `*` (greedy) or `*?` (lazy) -/
  | star (greedy : Bool) (r : Re) : Re
  /-- `(?:r)?` (greedy) -/
  | opt (r : Re) : Re
  /-- capture group number `idx` -/
  | group (idx : Nat) (r : Re) : Re
  /-- the `$` anchor: end of text -/
  | eos : Re

/-- Captured submatches: group index paired with the captured characters.
A later entry for the same index shadows an earlier one (lookup takes
the first hit, and new captures are consed on the front). -/
abbrev Caps := List (Nat × Str)

/-- One character of class membership. -/
def Re.clsMatches (neg : Bool) (cs : List Char) (c : Char) : Bool :=
  if neg then !(cs.contains c) else cs.contains c

/-- The backtracking matcher.  `mtch fuel re s caps k` tries to match
`re` against a prefix of `s`, extending `caps`, and calls the
continuation `k` with the rest of the input; alternatives are tried in
preferred-first order (greedy: longer first; lazy: shorter first),
giving Perl/RE2 leftmost-first semantics. -/
def mtch : Nat → Re → Str → Caps → (Str → Caps → Option Caps) → Option Caps
  | 0, _, _, _, _ => none
  | _ + 1, .eps, s, caps, k => k s caps
  | _ + 1, .lit c, s, caps, k =>
    match s with
    | [] => none
    | c' :: rest => if c' = c then k rest caps else none
  | _ + 1, .cls neg cs, s, caps, k =>
    match s with
    | [] => none
    | c' :: rest => if Re.clsMatches neg cs c' then k rest caps else none
  | fuel + 1, .seq a b, s, caps, k =>
    mtch fuel a s caps (fun s' caps' => mtch fuel b s' caps' k)
  | fuel + 1, .star greedy r, s, caps, k =>
    let deeper := fun (s' : Str) (caps' : Caps) =>
      if s'.length < s.length then mtch fuel (.star greedy r) s' caps' k else none
    if greedy then (mtch fuel r s caps deeper).orElse (fun _ => k s caps)
    else (k s caps).orElse (fun _ => mtch fuel r s caps deeper)
  | fuel + 1, .opt r, s, caps, k =>
    (mtch fuel r s caps k).orElse (fun _ => k s caps)
  | fuel + 1, .group i r, s, caps, k =>
    mtch fuel r s caps (fun s' caps' => k s' ((i, s.take (s.length - s'.length)) :: caps'))
  | _ + 1, .eos, s, caps, k =>
    match s with
    | [] => k s caps
    | _ :: _ => none

/-- Fuel that is always sufficient for `gasTownPattern` on input `s`
(the pattern is fixed and finite; each backtracking path is bounded by a
small polynomial of the input length). -/
def reFuel (s : Str) : Nat := (s.length + 30) * (s.length + 30)

/-- Try to match `re` at successive start positions, leftmost first
(`FindStringSubmatch` start-position scan). -/
def findFromLeft (re : Re) : Str → Option Caps
  | [] => mtch (reFuel []) re [] [] (fun _ caps => some caps)
  | c :: rest =>
    match mtch (reFuel (c :: rest)) re (c :: rest) [] (fun _ caps => some caps) with
    | some caps => some caps
    | none => findFromLeft re rest

/-- Greedy `r+` is `r` followed by greedy `r*`; lazy `r+?` is `r`
followed by lazy `r*?`. -/
def Re.plus (greedy : Bool) (r : Re) : Re := .seq r (.star greedy r)

/-- Characters of Go's regexp `\s` class: `[\t\n\f\r ]`. -/
def reSpaceChars : List Char := ['\t', '\n', '\x0c', '\r', ' ']

/-- Concatenation of a list of regexes. -/
def Re.cat (rs : List Re) : Re := rs.foldr .seq eps

/-- `gasTownPattern` (sessions.go):
`\[GAS TOWN\]\s+([^\s•]+)\s*(?:•\s*([^•]+?)\s*)?(?:•\s*(\S+))?\s*$`. -/
def gasTownPattern : Re :=
  Re.cat
    [Re.cat ("[GAS TOWN]".data.map Re.lit),
     Re.plus true (.cls false reSpaceChars),
     .group 1 (Re.plus true (.cls true ('•' :: reSpaceChars))),
     .star true (.cls false reSpaceChars),
     .opt (Re.cat
       [.lit '•',
        .star true (.cls false reSpaceChars),
        .group 2 (Re.plus false (.cls true ['•'])),
        .star true (.cls false reSpaceChars)]),
     .opt (Re.cat
       [.lit '•',
        .star true (.cls false reSpaceChars),
        .group 3 (Re.plus true (.cls true reSpaceChars))]),
     .star true (.cls false reSpaceChars),
     .eos]

/-- `re.FindStringSubmatch(s)` restricted to what the callers use:
`none` when the pattern does not match anywhere in `s`; on a match,
`some (match[1], match[2])` where a non-participating group yields the
empty string (Go returns `""` for groups that did not match). -/
def gasTownFindSubmatch (s : Str) : Option (Str × Str) :=
  match findFromLeft gasTownPattern s with
  | none => none
  | some caps =>
    some ((caps.lookup 1).getD [], (caps.lookup 2).getD [])

/-! ### JSON values and the tolerant record decoder

One line of a session file is one JSON value.  `encoding/json`
unmarshalling into the two anonymous structs of `parseSession`, into a
plain `string`, and into the `content`/`role` struct of
`extractMessageContent` is modelled below.  Go's relevant semantics:
unmarshalling JSON `null` into any target is a successful no-op (the
target keeps its zero value); a missing object key leaves the field at
its zero value; a key of the wrong type is an error (the line is then
skipped by every caller); for duplicate keys the last occurrence wins;
a `json.RawMessage` field stores the raw value (absent field ⇒ `nil`,
i.e. length 0). -/

/-- A JSON value (one line of a `.jsonl` session file). -/
inductive Json where
  | null : Json
  | bool (b : Bool) : Json
  | num (n : Int) : Json
  | str (s : Str) : Json
  | arr (elems : List Json) : Json
  | obj (fields : List (Str × Json)) : Json

/-- Duplicate keys: `encoding/json` lets the last occurrence win. -/
def jsonLookup (fields : List (Str × Json)) (key : Str) : Option Json :=
  (fields.filter (fun f => f.1 == key)).getLast?.map (fun f => f.2)

/-- Unmarshal a JSON value into a Go `string` variable: a JSON string
succeeds, `null` is a successful no-op leaving the zero value `""`,
anything else is a type error. -/
def decodeGoString : Json → Option Str
  | .str s => some s
  | .null => some []
  | _ => none

/-- Decode one `string`-typed struct field named `key`: an absent key
leaves the zero value `""`. -/
def decodeStrField (fields : List (Str × Json)) (key : Str) : Option Str :=
  match jsonLookup fields key with
  | none => some []
  | some v => decodeGoString v

/-- The line-1 anonymous struct of `parseSession`:
`struct { Type string; Summary string }`. -/
def decodeSummaryEntry : Json → Option (Str × Str)
  | .obj fields => do
    let t ← decodeStrField fields "type".data
    let s ← decodeStrField fields "summary".data
    pure (t, s)
  | .null => some ([], [])
  | _ => none

/-- The main anonymous struct of `parseSession`: `Type`, `SessionID`,
`Timestamp` strings and a raw `Message` payload. -/
structure LineEntry where
  type : Str
  sessionId : Str
  timestamp : Str
  message : Option Json

/-- Decode a line into `LineEntry` (`json.RawMessage` holds the raw
`message` value; an absent key gives a `nil`, length-0 raw message,
modelled as `none`). -/
def decodeUserEntry : Json → Option LineEntry
  | .obj fields => do
    let t ← decodeStrField fields "type".data
    let sid ← decodeStrField fields "sessionId".data
    let ts ← decodeStrField fields "timestamp".data
    pure ⟨t, sid, ts, jsonLookup fields "message".data⟩
  | .null => some ⟨[], [], [], none⟩
  | _ => none

/-- The `struct { Content string; Role string }` decode attempt of
`extractMessageContent` (`Role` is decoded but discarded; a type error
on either field fails the whole decode). -/
def decodeContentObj : Json → Option Str
  | .obj fields => do
    let c ← decodeStrField fields "content".data
    let _ ← decodeStrField fields "role".data
    pure c
  | .null => some []
  | _ => none

/-- `extractMessageContent` (sessions.go): empty payload yields `""`;
otherwise try to unmarshal as a plain string first and return it on
success; only then try the `content`/`role` object shape; yield `""`
when neither succeeds. -/
def extractMessageContent (msg : Option Json) : Str :=
  match msg with
  | none => []
  | some j =>
    match decodeGoString j with
    | some s => s
    | none =>
      match decodeContentObj j with
      | some c => c
      | none => []

/-! ### The per-file scan (`parseSession`) -/

/-- `SessionInfo` (sessions.go).  `startTime : Nat` models `time.Time`
with `0` as the zero value (`IsZero`). -/
structure SessionInfo where
  id : Str
  path : Str
  role : Str
  topic : Str
  startTime : Nat
  summary : Str
  isGasTown : Bool
  filePath : Str
deriving DecidableEq, Repr

/-- `SessionFilter` (sessions.go).  `limit : Int` models the Go `int`
(only `limit > 0` truncates). -/
structure SessionFilter where
  gasTownOnly : Bool
  role : Str
  rig : Str
  path : Str
  limit : Int
deriving DecidableEq, Repr

/-- The timestamp parser `time.Parse(time.RFC3339, ·)` is an external
library call, modelled abstractly: `some t` is a successful parse (and
`t = 0` is Go's zero `time.Time`, which RFC3339 can denote), `none` a
parse error. -/
abbrev TimeParse := Str → Option Nat

/-- First block of the `user` branch: parse the timestamp when the
start time is still unset (`entry.Timestamp != "" && info.StartTime.IsZero()`). -/
def updStart (tparse : TimeParse) (e : LineEntry) (info : SessionInfo) :
    SessionInfo :=
  if e.timestamp ≠ [] ∧ info.startTime = 0 then
    match tparse e.timestamp with
    | some t => { info with startTime := t }
    | none => info
  else info

/-- Second block: adopt the record's session id when the id is still
empty. -/
def updId (e : LineEntry) (info : SessionInfo) : SessionInfo :=
  if info.id = [] ∧ e.sessionId ≠ [] then { info with id := e.sessionId }
  else info

/-- Third block: when no beacon has been found yet, extract the message
content and attempt a beacon match. -/
def updBeacon (e : LineEntry) (info : SessionInfo) : SessionInfo :=
  if info.isGasTown = false then
    match gasTownFindSubmatch (extractMessageContent e.message) with
    | some m =>
      { info with isGasTown := true, role := m.1, topic := trimSpace m.2 }
    | none => info
  else info

/-- Processing of one line with number `lineNum ≥ 2` (the `user`-record
branch of `parseSession`'s loop body): the three blocks in source
order. -/
def processUserLine (tparse : TimeParse) (line : Json) (info : SessionInfo) :
    SessionInfo :=
  match decodeUserEntry line with
  | none => info
  | some e =>
    if e.type = "user".data then updBeacon e (updId e (updStart tparse e info))
    else info

/-- The body of `parseSession`'s loop for the line numbered `lineNum`
(1-based): line 1 only ever contributes the summary. -/
def stepLine (tparse : TimeParse) (lineNum : Nat) (line : Json)
    (info : SessionInfo) : SessionInfo :=
  if lineNum = 1 then
    match decodeSummaryEntry line with
    | some ts => if ts.1 = "summary".data then { info with summary := ts.2 } else info
    | none => info
  else processUserLine tparse line info

/-- The early-exit condition checked after each line
(`info.IsGasTown && !info.StartTime.IsZero()`). -/
def stopCond (info : SessionInfo) : Bool :=
  info.isGasTown && !(info.startTime == 0)

/-- `parseSession`'s scan loop.  Returns the final descriptor and the
number of lines examined.  Line 1 `continue`s past the break check.  A
later line whose `json.Unmarshal` fails also `continue`s past the break
check (on such a line `stepLine` leaves the state unchanged, so gating
the break on `(decodeUserEntry line).isSome` is exactly Go's
`continue`); after a successfully decoded line the loop breaks when a
beacon has been found, the start time is set and `lineNum > 20`. -/
def scanLoop (tparse : TimeParse) :
    List Json → Nat → SessionInfo → SessionInfo × Nat
  | [], _, info => (info, 0)
  | line :: rest, lineNum0, info =>
    let lineNum := lineNum0 + 1
    let info' := stepLine tparse lineNum line info
    if lineNum = 1 then
      let r := scanLoop tparse rest lineNum info'
      (r.1, r.2 + 1)
    else if (decodeUserEntry line).isSome = true ∧ stopCond info' = true ∧ 20 < lineNum then
      (info', 1)
    else
      let r := scanLoop tparse rest lineNum info'
      (r.1, r.2 + 1)

/-- The same loop without the break — the state after examining every
line (used to phrase "the state after the first `k` lines"). -/
def foldLines (tparse : TimeParse) :
    List Json → Nat → SessionInfo → SessionInfo
  | [], _, info => info
  | line :: rest, lineNum0, info =>
    foldLines tparse rest (lineNum0 + 1) (stepLine tparse (lineNum0 + 1) line info)

/-- `filepath.Base` for the non-degenerate inputs used here: the part
after the last separator. -/
def filepathBase (s : Str) : Str :=
  (s.reverse.takeWhile (fun c => c ≠ '/')).reverse

/-- The descriptor as initialized by `parseSession` before the loop:
project path, file path, and the filename-derived id. -/
def initInfo (filePath projectPath : Str) : SessionInfo :=
  { id := strTrimSuffix (filepathBase filePath) ".jsonl".data
    path := projectPath
    role := []
    topic := []
    startTime := 0
    summary := []
    isGasTown := false
    filePath := filePath }

/-- `parseSession` (sessions.go), for a file that opened successfully
with content `lines`.  Returns the descriptor and the number of lines
examined. -/
def parseSession (tparse : TimeParse) (filePath projectPath : Str)
    (lines : List Json) : SessionInfo × Nat :=
  scanLoop tparse lines 0 (initInfo filePath projectPath)

/-! ### `DiscoverSessions`

The filesystem under `$HOME/.claude/projects` is an explicit tree:
per-project directory entries (a `ReadDir` failure on a project
directory is `files = none`), per-session file entries (an `os.Open`
failure is `content = none`).  The projects directory itself is absent
(`os.Stat` reports not-exist), unreadable (`os.ReadDir` fails) or
present. -/

/-- One file inside a project directory; `content = none` models an
`os.Open` failure, `some lines` the parsed line sequence. -/
structure FileEnt where
  name : Str
  content : Option (List Json)

/-- One entry of the projects directory; `files = none` models a
`ReadDir` failure on the project directory. -/
structure DirEnt where
  name : Str
  isDir : Bool
  files : Option (List FileEnt)

/-- The state of the projects directory as a whole. -/
inductive ProjectsDir where
  /-- `os.Stat` reports the directory does not exist -/
  | absent : ProjectsDir
  /-- the directory exists but `os.ReadDir` on it fails -/
  | unreadable : ProjectsDir
  /-- `os.ReadDir` succeeds with these entries -/
  | present (entries : List DirEnt) : ProjectsDir

/-- `sort.Slice(sessions, func(i, j) { return sessions[i].StartTime.After(sessions[j].StartTime) })`.
Go's `sort.Slice` is an unstable sort; this model is an insertion sort
producing one particular permutation ordered by the same comparator, so
only order-insensitive consequences (membership, length) are faithful
to the program.  Insertion of one element into a descending list. -/
def insertDesc (x : SessionInfo) : List SessionInfo → List SessionInfo
  | [] => [x]
  | y :: l => if y.startTime ≤ x.startTime then x :: y :: l else y :: insertDesc x l

/-- Stable insertion sort, most recent `startTime` first. -/
def sortByStartDesc : List SessionInfo → List SessionInfo
  | [] => []
  | x :: l => insertDesc x (sortByStartDesc l)

/-- `strings.ToLower` (ASCII; the inputs of interest are ASCII). -/
def strToLower (s : Str) : Str := s.map Char.toLower

/-- The per-session filter applied after `parseSession` (sessions.go
lines 94–105): the beacon-only flag, then the role substring matched
case-insensitively against the role or the decoded path. -/
def sessionPassesFilter (filter : SessionFilter) (info : SessionInfo) : Bool :=
  if filter.gasTownOnly && !info.isGasTown then false
  else if filter.role ≠ [] then
    strContains (strToLower info.role) (strToLower filter.role) ||
      strContains (strToLower info.path) (strToLower filter.role)
  else true

/-- Handling of one candidate file of a project directory: extension and
`agent-` checks, open, parse, per-session filters.  `none` means the
file contributes nothing. -/
def scanFile (tparse : TimeParse) (filter : SessionFilter)
    (projectDirPath projectPath : Str) (f : FileEnt) : Option SessionInfo :=
  if strHasSuffix f.name ".jsonl".data = false then none
  else if strStartsWith f.name "agent-".data then none
  else
    match f.content with
    | none => none
    | some lines =>
      let info := (parseSession tparse (projectDirPath ++ '/' :: f.name) projectPath lines).1
      if sessionPassesFilter filter info then some info else none

/-- Handling of one entry of the projects directory (sessions.go lines
56–109): skip non-directories, decode the project path, apply the rig
and path filters before opening anything, then scan the files (a
`ReadDir` failure on the project directory contributes nothing). -/
def scanProjectDir (tparse : TimeParse) (filter : SessionFilter)
    (projectsDirPath : Str) (e : DirEnt) : List SessionInfo :=
  if e.isDir = false then []
  else
    let projectPath := decodePath e.name
    if filter.rig ≠ [] ∧ strContains projectPath ('/' :: filter.rig ++ ['/']) = false then []
    else if filter.path ≠ [] ∧ strContains projectPath filter.path = false then []
    else
      match e.files with
      | none => []
      | some files =>
        files.filterMap (scanFile tparse filter (projectsDirPath ++ '/' :: e.name) projectPath)

/-- `DiscoverSessions` (sessions.go).  An absent projects directory is
no error and an empty result; a failure to enumerate the projects
directory is the only surfaced error; otherwise the per-directory scans
are concatenated, sorted by start time descending and truncated to the
limit when it is positive. -/
def DiscoverSessions (tparse : TimeParse) (filter : SessionFilter)
    (projectsDirPath : Str) (pd : ProjectsDir) : Except Unit (List SessionInfo) :=
  match pd with
  | .absent => .ok []
  | .unreadable => .error ()
  | .present entries =>
    let sessions := entries.flatMap (scanProjectDir tparse filter projectsDirPath)
    let sorted := sortByStartDesc sessions
    .ok (if 0 < filter.limit ∧ filter.limit.toNat < sorted.length
         then sorted.take filter.limit.toNat else sorted)

/-! ### Spec-side definitions and concrete fixtures -/

/-- Formalization of the claim phrase "the timestamp of the earliest
qualifying user record": walking the lines with `parseSession`'s
numbering, the first record after line 1 that decodes as a `user` record
with a non-empty timestamp parsing to a non-zero time.  (A record whose
timestamp parses to the zero time does not qualify: it leaves
`StartTime.IsZero()` true, so the code treats the start time as still
unset.) -/
def earliestQualifying (tparse : TimeParse) :
    List Json → Nat → Option Nat
  | [], _ => none
  | line :: rest, num =>
    if num + 1 = 1 then earliestQualifying tparse rest (num + 1)
    else
      match decodeUserEntry line with
      | none => earliestQualifying tparse rest (num + 1)
      | some e =>
        if e.type = "user".data ∧ e.timestamp ≠ [] then
          match tparse e.timestamp with
          | some t => if t ≠ 0 then some t else earliestQualifying tparse rest (num + 1)
          | none => earliestQualifying tparse rest (num + 1)
        else earliestQualifying tparse rest (num + 1)

/-- What line 1 can contribute to the descriptor: the summary string
when the line decodes as a summary-type record, nothing otherwise. -/
def line1Summary (l1 : Json) : Str :=
  match decodeSummaryEntry l1 with
  | some ts => if ts.1 = "summary".data then ts.2 else []
  | none => []

/-- Concrete stand-in for the abstract RFC3339 parser in witnesses and
counterexamples: one fixed timestamp string parses, to the non-zero
time 5. -/
def tparseEx : TimeParse :=
  fun s => if s == "2025-01-01T00:00:00Z".data then some 5 else none

/-- A `user` record with a parseable timestamp and a beacon message. -/
def beaconLineEx : Json :=
  .obj [("type".data, .str "user".data),
        ("timestamp".data, .str "2025-01-01T00:00:00Z".data),
        ("message".data, .str "[GAS TOWN] witness • handoff".data)]

/-- A line that fails to decode as a record. -/
def junkLineEx : Json := .num 3

/-- A 21-line file: junk on line 1, the beacon record on line 2, then 19
junk lines. -/
def file21Ex : List Json := junkLineEx :: beaconLineEx :: List.replicate 19 junkLineEx

/-- A 22-line file: junk on line 1, the beacon record on line 2, then 20
undecodable junk lines. -/
def file22Ex : List Json := junkLineEx :: beaconLineEx :: List.replicate 20 junkLineEx

/-- An unrestricted filter. -/
def filterNoneEx : SessionFilter := ⟨false, [], [], [], 0⟩

/-- A filter selecting the rig `gastown`. -/
def rigGastownFilterEx : SessionFilter := ⟨false, [], "gastown".data, [], 0⟩

/-- A filter selecting the rig `tmp`. -/
def rigTmpFilterEx : SessionFilter := ⟨false, [], "tmp".data, [], 0⟩

/-- A project directory whose decoded path `/tmp/gastown` ends in the
rig name, holding one well-formed (empty) session file. -/
def dirGastownEx : DirEnt :=
  ⟨"-tmp-gastown".data, true, some [⟨"abc.jsonl".data, some []⟩]⟩

/-- The projects-directory path used in concrete discovery runs. -/
def projRootEx : Str := "/root/.claude/projects".data

/-- The descriptor `dirGastownEx`'s single file parses to. -/
def infoEx : SessionInfo :=
  (parseSession tparseEx
    (projRootEx ++ '/' :: "-tmp-gastown".data ++ '/' :: "abc.jsonl".data)
    (decodePath "-tmp-gastown".data) []).1

/-! ### Helper lemmas -/

/-- `trimSpace` is front-trim followed by Mathlib's right-trim. -/
theorem trimSpace_eq (s : Str) :
    trimSpace s = List.rdropWhile isGoSpace (s.dropWhile isGoSpace) := rfl

/-- A nonempty prefix starts with the same character. -/
theorem head?_of_isPrefix {l₁ l₂ : Str} {c : Char} (h : l₁ <+: l₂)
    (hc : l₁.head? = some c) : l₂.head? = some c := by
  obtain ⟨t, rfl⟩ := h
  cases l₁ with
  | nil => cases hc
  | cons a l => simpa using hc

/-- The head surviving `dropWhile p` fails `p`. -/
theorem head?_dropWhile_not (p : Char → Bool) (l : Str) {c : Char}
    (h : (l.dropWhile p).head? = some c) : p c = false := by
  induction l with
  | nil => cases h
  | cons a l ih =>
    by_cases hp : p a
    · rw [List.dropWhile_cons_of_pos hp] at h
      exact ih h
    · rw [List.dropWhile_cons_of_neg hp] at h
      simp only [List.head?_cons, Option.some.injEq] at h
      subst h
      simpa using hp

/-- The last element surviving `rdropWhile p` fails `p`. -/
theorem getLast?_rdropWhile_not (p : Char → Bool) (l : Str) {c : Char}
    (h : (List.rdropWhile p l).getLast? = some c) : p c = false := by
  have hne : List.rdropWhile p l ≠ [] := by
    intro hnil
    rw [hnil] at h
    cases h
  have hlast := List.rdropWhile_last_not p l hne
  rw [List.getLast?_eq_getLast _ hne] at h
  have hc := Option.some.inj h
  rw [← hc]
  simpa using hlast

/-! ### Step lemmas about `parseSession`'s loop body -/

/-- `updStart` only ever writes `startTime`. -/
theorem updStart_fields (tparse : TimeParse) (e : LineEntry) (i : SessionInfo) :
    (updStart tparse e i).id = i.id ∧ (updStart tparse e i).path = i.path ∧
    (updStart tparse e i).role = i.role ∧ (updStart tparse e i).topic = i.topic ∧
    (updStart tparse e i).summary = i.summary ∧
    (updStart tparse e i).isGasTown = i.isGasTown ∧
    (updStart tparse e i).filePath = i.filePath := by
  unfold updStart
  cases htp : tparse e.timestamp <;> repeat' split <;>
    exact ⟨rfl, rfl, rfl, rfl, rfl, rfl, rfl⟩

/-- `updStart` never changes a non-zero start time. -/
theorem updStart_frozen (tparse : TimeParse) (e : LineEntry) (i : SessionInfo)
    (h : i.startTime ≠ 0) : updStart tparse e i = i := by
  unfold updStart
  repeat' split <;> simp_all

/-- `updId` only ever writes `id`. -/
theorem updId_fields (e : LineEntry) (i : SessionInfo) :
    (updId e i).path = i.path ∧ (updId e i).role = i.role ∧
    (updId e i).topic = i.topic ∧ (updId e i).startTime = i.startTime ∧
    (updId e i).summary = i.summary ∧ (updId e i).isGasTown = i.isGasTown ∧
    (updId e i).filePath = i.filePath := by
  unfold updId
  repeat' split <;> exact ⟨rfl, rfl, rfl, rfl, rfl, rfl, rfl⟩

/-- `updBeacon` only ever writes `isGasTown`, `role` and `topic`. -/
theorem updBeacon_fields (e : LineEntry) (i : SessionInfo) :
    (updBeacon e i).id = i.id ∧ (updBeacon e i).path = i.path ∧
    (updBeacon e i).startTime = i.startTime ∧ (updBeacon e i).summary = i.summary ∧
    (updBeacon e i).filePath = i.filePath := by
  unfold updBeacon
  cases hm : gasTownFindSubmatch (extractMessageContent e.message) <;> repeat' split <;>
    exact ⟨rfl, rfl, rfl, rfl, rfl⟩

/-- `updBeacon` is the identity on an already-beaconed descriptor. -/
theorem updBeacon_already (e : LineEntry) (i : SessionInfo)
    (h : i.isGasTown = true) : updBeacon e i = i := by
  unfold updBeacon
  repeat' split <;> simp_all

/-- When `updBeacon` leaves the descriptor un-beaconed it changed
nothing. -/
theorem updBeacon_not_beaconed (e : LineEntry) (i : SessionInfo)
    (h : (updBeacon e i).isGasTown = false) : updBeacon e i = i ∧ i.isGasTown = false := by
  revert h
  unfold updBeacon
  repeat' split <;> simp_all

/-- Once the descriptor is beaconed, a step never resets the beacon nor
changes the captured role and topic. -/
theorem stepLine_beacon_mono (tparse : TimeParse) (num : Nat) (line : Json)
    (i : SessionInfo) (h : i.isGasTown = true) :
    (stepLine tparse num line i).isGasTown = true ∧
    (stepLine tparse num line i).role = i.role ∧
    (stepLine tparse num line i).topic = i.topic := by
  unfold stepLine
  split
  · split
    · split <;> simp [h]
    · simp [h]
  · unfold processUserLine
    split
    · simp [h]
    · split
      · rename_i e _ _
        have h1 := updStart_fields tparse e i
        have h2 := updId_fields e (updStart tparse e i)
        have hG : (updId e (updStart tparse e i)).isGasTown = true := by
          rw [h2.2.2.2.2.2.1, h1.2.2.2.2.2.1, h]
        rw [updBeacon_already e _ hG]
        exact ⟨hG, by rw [h2.2.1, h1.2.2.1], by rw [h2.2.2.1, h1.2.2.2.1]⟩
      · simp [h]

/-- Once the start time is non-zero, a step never changes it. -/
theorem stepLine_startTime_frozen (tparse : TimeParse) (num : Nat) (line : Json)
    (i : SessionInfo) (h : i.startTime ≠ 0) :
    (stepLine tparse num line i).startTime = i.startTime := by
  unfold stepLine
  split
  · split
    · split <;> simp
    · simp
  · unfold processUserLine
    split
    · rfl
    · split
      · rename_i e _ _
        rw [updStart_frozen tparse e i h]
        rw [(updBeacon_fields e (updId e i)).2.2.1, (updId_fields e i).2.2.2.1]
      · rfl

/-- When a step leaves the descriptor un-beaconed, it changed neither
the role nor the topic (and the descriptor was un-beaconed before). -/
theorem stepLine_not_beaconed (tparse : TimeParse) (num : Nat) (line : Json)
    (i : SessionInfo) (h : (stepLine tparse num line i).isGasTown = false) :
    (stepLine tparse num line i).role = i.role ∧
    (stepLine tparse num line i).topic = i.topic ∧ i.isGasTown = false := by
  revert h
  unfold stepLine
  split
  · split
    · split <;> simp
    · simp
  · unfold processUserLine
    split
    · exact fun h => ⟨rfl, rfl, h⟩
    · split
      · rename_i e _ _
        intro h
        have h1 := updStart_fields tparse e i
        have h2 := updId_fields e (updStart tparse e i)
        obtain ⟨heq, hG⟩ := updBeacon_not_beaconed e _ h
        rw [heq]
        refine ⟨by rw [h2.2.1, h1.2.2.1], by rw [h2.2.2.1, h1.2.2.2.1], ?_⟩
        rw [h2.2.2.2.2.2.1, h1.2.2.2.2.2.1] at hG
        exact hG
      · exact fun h => ⟨rfl, rfl, h⟩

/-- `updStart` neither reads nor writes the summary. -/
theorem updStart_summary (tparse : TimeParse) (e : LineEntry) (i : SessionInfo)
    (s : Str) :
    updStart tparse e { i with summary := s }
      = { updStart tparse e i with summary := s } := by
  unfold updStart
  cases htp : tparse e.timestamp <;>
    by_cases hc : e.timestamp ≠ [] ∧ i.startTime = 0 <;>
      simp [htp, hc]

/-- `updId` neither reads nor writes the summary. -/
theorem updId_summary (e : LineEntry) (i : SessionInfo) (s : Str) :
    updId e { i with summary := s } = { updId e i with summary := s } := by
  unfold updId
  by_cases hc : i.id = [] ∧ e.sessionId ≠ [] <;> simp [hc]

/-- `updBeacon` neither reads nor writes the summary. -/
theorem updBeacon_summary (e : LineEntry) (i : SessionInfo) (s : Str) :
    updBeacon e { i with summary := s } = { updBeacon e i with summary := s } := by
  unfold updBeacon
  cases hm : gasTownFindSubmatch (extractMessageContent e.message) <;>
    by_cases hc : i.isGasTown = false <;> simp [hm, hc]

/-- After line 1 a step neither reads nor writes the summary. -/
theorem stepLine_summary_indep (tparse : TimeParse) (num : Nat) (line : Json)
    (i : SessionInfo) (s : Str) (h : num ≠ 1) :
    stepLine tparse num line { i with summary := s }
      = { stepLine tparse num line i with summary := s } := by
  unfold stepLine
  rw [if_neg h, if_neg h]
  unfold processUserLine
  cases hd : decodeUserEntry line with
  | none => rfl
  | some e =>
    by_cases ht : e.type = "user".data
    · simp only [ht, if_true, if_pos]
      rw [updStart_summary, updId_summary, updBeacon_summary]
    · simp [ht]

/-! ### Claim C6 — the path codec -/

/-- C6: for every encoded directory name beginning with the substitution
character `-`, `decodePath`'s output begins with the path separator `/`
and contains no occurrence of `-`; and for input without a leading
substitution character internal occurrences are still replaced, so
`decodePath "foo-bar" = "foo/bar"`. -/
theorem decodePath_spec (enc : Str) (h : strStartsWith enc ['-'] = true) :
    (decodePath enc).head? = some '/' ∧ ('-' ∉ decodePath enc) ∧
      decodePath "foo-bar".data = "foo/bar".data := by
  obtain ⟨t, rfl⟩ : ∃ t, enc = '-' :: t := by
    have hp : ['-'] <+: enc := List.isPrefixOf_iff_prefix.mp h
    obtain ⟨t, ht⟩ := hp
    exact ⟨t, ht.symm⟩
  refine ⟨?_, ?_, by decide⟩
  · simp [decodePath, h]
  · simp only [decodePath, h, if_true, List.drop_one, List.tail_cons, List.map_cons]
    intro hmem
    rcases List.mem_cons.mp hmem with h1 | h1
    · exact absurd h1.symm (by decide)
    · obtain ⟨c, _, hc⟩ := List.mem_map.mp h1
      by_cases hcd : c = '-' <;> simp [hcd] at hc

/-- Witness for `decodePath_spec` at the concrete input `"-Users-stevey"`. -/
theorem decodePath_spec_witness :
    (decodePath "-Users-stevey".data).head? = some '/' ∧
      ('-' ∉ decodePath "-Users-stevey".data) ∧
      decodePath "foo-bar".data = "foo/bar".data :=
  decodePath_spec "-Users-stevey".data (by decide)

/-! ### Claim C4 — the message-content decoder -/

/-- C4: `extractMessageContent` attempts plain-string decoding first and
returns that string on success; only when string decoding fails does it
attempt the structured object with a `content` field; when neither
decoding succeeds, or the payload is empty, it returns the empty
string. -/
theorem extractMessageContent_spec :
    extractMessageContent none = [] ∧
    (∀ j s, decodeGoString j = some s → extractMessageContent (some j) = s) ∧
    (∀ j c, decodeGoString j = none → decodeContentObj j = some c →
      extractMessageContent (some j) = c) ∧
    (∀ j, decodeGoString j = none → decodeContentObj j = none →
      extractMessageContent (some j) = []) := by
  refine ⟨rfl, ?_, ?_, ?_⟩
  · intro j s h
    simp [extractMessageContent, h]
  · intro j c h1 h2
    simp [extractMessageContent, h1, h2]
  · intro j h1 h2
    simp [extractMessageContent, h1, h2]

/-- Witness for `extractMessageContent_spec`: a plain-string payload is
returned as-is. -/
theorem extractMessageContent_spec_witness :
    extractMessageContent (some (.str "hi".data)) = "hi".data :=
  extractMessageContent_spec.2.1 (.str "hi".data) "hi".data rfl

/-! ### Claim C3 — the beacon matcher -/

/-- C3: the beacon matcher applied to
`"[GAS TOWN] gastown/crew/gus • assigned:gt-abc12 • 2025-12-30T15:42"`
yields role `"gastown/crew/gus"` and topic `"assigned:gt-abc12"` (the
trailing timestamp is matched but not surfaced); applied to
`"[GAS TOWN] witness • handoff"` it yields role `"witness"` and topic
`"handoff"`; applied to text with no beacon tag it yields no match; a
match with only a role and no topic is valid (the topic group is then
empty); and the topic as captured by `parseSession` (`TrimSpace` of the
second group) carries no leading or trailing whitespace. -/
theorem gasTownPattern_spec :
    gasTownFindSubmatch
        "[GAS TOWN] gastown/crew/gus • assigned:gt-abc12 • 2025-12-30T15:42".data
        = some ("gastown/crew/gus".data, "assigned:gt-abc12".data) ∧
    gasTownFindSubmatch "[GAS TOWN] witness • handoff".data
        = some ("witness".data, "handoff".data) ∧
    gasTownFindSubmatch "Regular message without beacon".data = none ∧
    gasTownFindSubmatch "[GAS TOWN] witness".data = some ("witness".data, []) ∧
    (∀ s m c, gasTownFindSubmatch s = some m →
      ((trimSpace m.2).head? = some c → isGoSpace c = false) ∧
      ((trimSpace m.2).getLast? = some c → isGoSpace c = false)) := by
  refine ⟨by decide, by decide, by decide, by decide, ?_⟩
  intro s m c _
  constructor
  · intro hhead
    rw [trimSpace_eq] at hhead
    have hy : ((m.2.dropWhile isGoSpace).head? = some c) :=
      head?_of_isPrefix (List.rdropWhile_prefix _ _) hhead
    exact head?_dropWhile_not _ _ hy
  · intro hlast
    rw [trimSpace_eq] at hlast
    exact getLast?_rdropWhile_not _ _ hlast

/-- Witness for `gasTownPattern_spec`: its trim property applied at the
two-field beacon text. -/
theorem gasTownPattern_spec_witness : isGoSpace 'h' = false :=
  (gasTownPattern_spec.2.2.2.2 "[GAS TOWN] witness • handoff".data
      ("witness".data, "handoff".data) 'h' (by decide)).1 (by decide)

/-! ### Scan-level lemmas -/

/-- A property preserved by every step is preserved by the breaking
scan loop. -/
theorem scanLoop_preserve (tparse : TimeParse) (P : SessionInfo → Prop)
    (hP : ∀ num line i, P i → P (stepLine tparse num line i)) :
    ∀ (lines : List Json) (num : Nat) (i : SessionInfo),
      P i → P (scanLoop tparse lines num i).1 := by
  intro lines
  induction lines with
  | nil => exact fun num i h => h
  | cons l rest ih =>
    intro num i h
    simp only [scanLoop]
    split
    · exact ih _ _ (hP _ _ _ h)
    · split
      · exact hP _ _ _ h
      · exact ih _ _ (hP _ _ _ h)

/-- A property preserved by every step is preserved by the non-breaking
fold. -/
theorem foldLines_preserve (tparse : TimeParse) (P : SessionInfo → Prop)
    (hP : ∀ num line i, P i → P (stepLine tparse num line i)) :
    ∀ (lines : List Json) (num : Nat) (i : SessionInfo),
      P i → P (foldLines tparse lines num i) := by
  intro lines
  induction lines with
  | nil => exact fun num i h => h
  | cons l rest ih => exact fun num i h => ih _ _ (hP _ _ _ h)

/-- Folding an appended segment continues the fold of the first part. -/
theorem foldLines_append (tparse : TimeParse) :
    ∀ (xs ys : List Json) (num : Nat) (i : SessionInfo),
      foldLines tparse (xs ++ ys) num i
        = foldLines tparse ys (num + xs.length) (foldLines tparse xs num i) := by
  intro xs
  induction xs with
  | nil => intro ys num i; simp [foldLines]
  | cons x xs ih =>
    intro ys num i
    simp only [List.cons_append, List.append_eq, foldLines, List.length_cons]
    rw [ih]
    congr 1
    omega

/-- The scan never consumes more lines than there are. -/
theorem scanLoop_le_length (tparse : TimeParse) :
    ∀ (lines : List Json) (num : Nat) (i : SessionInfo),
      (scanLoop tparse lines num i).2 ≤ lines.length := by
  intro lines
  induction lines with
  | nil => intro num i; simp [scanLoop]
  | cons l rest ih =>
    intro num i
    simp only [scanLoop, List.length_cons]
    split
    · have := ih (num + 1) (stepLine tparse (num + 1) l i)
      omega
    · split
      · simp
      · have := ih (num + 1) (stepLine tparse (num + 1) l i)
        omega

/-- When the scan stops early, the final descriptor satisfies the break
condition. -/
theorem scanLoop_early_stopCond (tparse : TimeParse) :
    ∀ (lines : List Json) (num : Nat) (i : SessionInfo),
      (scanLoop tparse lines num i).2 < lines.length →
      stopCond (scanLoop tparse lines num i).1 = true := by
  intro lines
  induction lines with
  | nil => intro num i h; simp [scanLoop] at h
  | cons l rest ih =>
    intro num i h
    simp only [scanLoop, List.length_cons] at h ⊢
    split at h
    · rename_i h1
      rw [if_pos h1]
      dsimp only at h ⊢
      exact ih (num + 1) (stepLine tparse (num + 1) l i) (by omega)
    · rename_i h1
      split at h
      · rename_i h2
        rw [if_neg h1, if_pos h2]
        exact h2.2.1
      · rename_i h2
        rw [if_neg h1, if_neg h2]
        dsimp only at h ⊢
        exact ih (num + 1) (stepLine tparse (num + 1) l i) (by omega)

/-! ### Claim C10 — role/topic only come from a beacon match -/

/-- C10: in every descriptor produced by `parseSession`, a non-empty
role or a non-empty topic implies the beacon flag is set: role and topic
are only ever assigned inside a successful beacon match. -/
theorem parseSession_role_topic_imp_beacon (tparse : TimeParse)
    (fp pp : Str) (lines : List Json)
    (h : (parseSession tparse fp pp lines).1.role ≠ [] ∨
         (parseSession tparse fp pp lines).1.topic ≠ []) :
    (parseSession tparse fp pp lines).1.isGasTown = true := by
  have key := scanLoop_preserve tparse
    (fun j => j.isGasTown = false → j.role = [] ∧ j.topic = [])
    (fun num line i hi hstep => by
      obtain ⟨hrole, htopic, hprev⟩ := stepLine_not_beaconed tparse num line i hstep
      obtain ⟨h1, h2⟩ := hi hprev
      exact ⟨hrole.trans h1, htopic.trans h2⟩)
    lines 0 (initInfo fp pp) (fun _ => ⟨rfl, rfl⟩)
  rcases Bool.eq_false_or_eq_true (parseSession tparse fp pp lines).1.isGasTown with hb | hb
  · exact hb
  · obtain ⟨h1, h2⟩ := key hb
    rcases h with h | h
    · exact absurd h1 h
    · exact absurd h2 h

/-- Witness for `parseSession_role_topic_imp_beacon` at a concrete
beaconed file. -/
theorem parseSession_role_topic_imp_beacon_witness :
    (parseSession tparseEx "x.jsonl".data "/p".data [junkLineEx, beaconLineEx]).1.isGasTown
      = true :=
  parseSession_role_topic_imp_beacon tparseEx "x.jsonl".data "/p".data
    [junkLineEx, beaconLineEx] (Or.inl (by decide))

/-- From line 2 on, the scan loop neither reads nor writes the summary
field. -/
theorem scanLoop_summary_indep (tparse : TimeParse) :
    ∀ (lines : List Json) (num : Nat) (i : SessionInfo) (s : Str), 1 ≤ num →
      scanLoop tparse lines num { i with summary := s }
        = ({ (scanLoop tparse lines num i).1 with summary := s },
           (scanLoop tparse lines num i).2) := by
  intro lines
  induction lines with
  | nil => intro num i s _; rfl
  | cons l rest ih =>
    intro num i s h
    have hne : num + 1 ≠ 1 := by omega
    simp only [scanLoop]
    rw [if_neg hne, if_neg hne]
    rw [stepLine_summary_indep tparse (num + 1) l i s hne]
    have hstop : stopCond { stepLine tparse (num + 1) l i with summary := s }
        = stopCond (stepLine tparse (num + 1) l i) := rfl
    rw [hstop]
    split
    · rfl
    · rw [ih (num + 1) (stepLine tparse (num + 1) l i) s (by omega)]

/-! ### Claim C9 — line 1 contributes only the summary -/

/-- C9: the first line of a file is never examined for user-turn fields:
the descriptor for `l1 :: rest` is the descriptor obtained from `rest`
alone (scanned from line number 2), with the summary — and only the
summary — taken from line 1, and only when line 1 decodes as a
summary-type record.  In particular `startTime`, `id`, `isGasTown`,
`role` and `topic` never depend on line 1. -/
theorem parseSession_line1_summary_only (tparse : TimeParse) (fp pp : Str)
    (l1 : Json) (rest : List Json) :
    (parseSession tparse fp pp (l1 :: rest)).1
      = { (scanLoop tparse rest 1 (initInfo fp pp)).1
          with summary := line1Summary l1 } := by
  have hstep : stepLine tparse 1 l1 (initInfo fp pp)
      = { initInfo fp pp with summary := line1Summary l1 } := by
    unfold stepLine line1Summary
    rw [if_pos rfl]
    cases hd : decodeSummaryEntry l1 with
    | none => rfl
    | some ts =>
      by_cases h : ts.1 = "summary".data
      · simp [h]
      · simp [h]
        rfl
  unfold parseSession
  simp only [scanLoop, if_true, Nat.zero_add]
  rw [hstep,
    scanLoop_summary_indep tparse rest 1 (initInfo fp pp) (line1Summary l1) le_rfl]

/-! ### Claim C5 — monotonicity of `startTime` and the beacon -/

/-- A descriptor with zero start time never satisfies the break
condition. -/
theorem stopCond_of_zero (j : SessionInfo) (h : j.startTime = 0) :
    stopCond j = false := by
  simp [stopCond, h]

/-- The scan loop never changes a non-zero start time. -/
theorem scanLoop_startTime_keep (tparse : TimeParse) (lines : List Json)
    (num : Nat) (i : SessionInfo) (h : i.startTime ≠ 0) :
    (scanLoop tparse lines num i).1.startTime = i.startTime := by
  exact scanLoop_preserve tparse (fun j => j.startTime = i.startTime)
    (fun num' line j hj => by
      have hj' : j.startTime = i.startTime := hj
      show (stepLine tparse num' line j).startTime = i.startTime
      rw [stepLine_startTime_frozen tparse num' line j (hj' ▸ h), hj'])
    lines num i rfl

/-- The one-step unfolding of the qualifying-record search past line 1. -/
theorem earliestQualifying_cons (tparse : TimeParse) (l : Json)
    (rest : List Json) (num : Nat) (h1 : num + 1 ≠ 1) :
    earliestQualifying tparse (l :: rest) num
      = match decodeUserEntry l with
        | none => earliestQualifying tparse rest (num + 1)
        | some e =>
          if e.type = "user".data ∧ e.timestamp ≠ [] then
            match tparse e.timestamp with
            | some t =>
              if t ≠ 0 then some t else earliestQualifying tparse rest (num + 1)
            | none => earliestQualifying tparse rest (num + 1)
          else earliestQualifying tparse rest (num + 1) := by
  conv_lhs => rw [earliestQualifying]
  rw [if_neg h1]

/-- One line of processing, against the qualifying-record search: either
the start time is still zero and the search continues, or it has just
become the head of the search. -/
theorem stepLine_qualifying (tparse : TimeParse) (num : Nat) (l : Json)
    (rest : List Json) (i : SessionInfo) (h1 : num + 1 ≠ 1)
    (hi : i.startTime = 0) :
    ((stepLine tparse (num + 1) l i).startTime = 0 ∧
      earliestQualifying tparse (l :: rest) num
        = earliestQualifying tparse rest (num + 1)) ∨
    ((stepLine tparse (num + 1) l i).startTime ≠ 0 ∧
      earliestQualifying tparse (l :: rest) num
        = some (stepLine tparse (num + 1) l i).startTime) := by
  have heq := earliestQualifying_cons tparse l rest num h1
  unfold stepLine processUserLine
  rw [if_neg h1]
  cases hd : decodeUserEntry l with
  | none =>
    simp only [hd] at heq
    exact Or.inl ⟨hi, heq⟩
  | some e =>
    simp only [hd] at heq
    dsimp only
    by_cases ht : e.type = "user".data
    · rw [if_pos ht]
      have hj : (updBeacon e (updId e (updStart tparse e i))).startTime
          = (updStart tparse e i).startTime := by
        rw [(updBeacon_fields e _).2.2.1, (updId_fields e _).2.2.2.1]
      by_cases hts : e.timestamp = []
      · rw [if_neg (by simp [hts])] at heq
        have hu : updStart tparse e i = i := by
          unfold updStart
          rw [if_neg (by simp [hts])]
        exact Or.inl ⟨by rw [hj, hu, hi], heq⟩
      · rw [if_pos ⟨ht, hts⟩] at heq
        cases htp : tparse e.timestamp with
        | none =>
          simp only [htp] at heq
          have hu : updStart tparse e i = i := by
            unfold updStart
            rw [if_pos ⟨hts, hi⟩, htp]
          exact Or.inl ⟨by rw [hj, hu, hi], heq⟩
        | some t =>
          simp only [htp] at heq
          have hu : updStart tparse e i = { i with startTime := t } := by
            unfold updStart
            rw [if_pos ⟨hts, hi⟩, htp]
          by_cases htz : t = 0
          · rw [if_neg (by simp [htz])] at heq
            exact Or.inl ⟨by rw [hj, hu, htz], heq⟩
          · rw [if_pos htz] at heq
            refine Or.inr ⟨?_, ?_⟩
            · rw [hj, hu]
              exact htz
            · rw [heq, hj, hu]
    · rw [if_neg ht]
      rw [if_neg (by simp [ht])] at heq
      exact Or.inl ⟨hi, heq⟩

/-- Starting from an unset start time, the scan's final start time is
the earliest qualifying timestamp (or the zero value when there is
none). -/
theorem scanLoop_startTime_earliest (tparse : TimeParse) :
    ∀ (lines : List Json) (num : Nat) (i : SessionInfo), i.startTime = 0 →
      (scanLoop tparse lines num i).1.startTime
        = (earliestQualifying tparse lines num).getD 0 := by
  intro lines
  induction lines with
  | nil =>
    intro num i hi
    simpa [scanLoop, earliestQualifying] using hi
  | cons l rest ih =>
    intro num i hi
    by_cases h1 : num + 1 = 1
    · have hstep : (stepLine tparse (num + 1) l i).startTime = 0 := by
        unfold stepLine
        rw [if_pos h1]
        split
        · split <;> simpa using hi
        · simpa using hi
      simp only [scanLoop, earliestQualifying, if_pos h1]
      exact ih (num + 1) _ hstep
    · rcases stepLine_qualifying tparse num l rest i h1 hi with ⟨hz, heq⟩ | ⟨hnz, heq⟩
      · simp only [scanLoop, if_neg h1]
        rw [if_neg (by simp [stopCond_of_zero _ hz])]
        dsimp only
        rw [heq]
        exact ih (num + 1) _ hz
      · simp only [scanLoop, if_neg h1]
        rw [heq]
        split
        · simp
        · dsimp only
          rw [scanLoop_startTime_keep tparse rest (num + 1) _ hnz]
          simp

/-- C5: within the scan of a single file, `startTime` is first-wins —
once non-zero it is never overwritten by any later record — and it
equals the timestamp of the earliest qualifying user record (a `user`
record after line 1 whose timestamp parses to a non-zero time; a record
parsing to the zero time leaves `IsZero` true, so the code still treats
the start time as unset); `isBeaconed` is monotonic — once set, no
later line of the same scan resets it or changes the captured role and
topic.  The state after the first `k` lines of the scan is
`foldLines` over those lines, so extending the scanned prefix is
"later records of the same scan". -/
theorem parseSession_invariants (tparse : TimeParse) (fp pp : Str)
    (lines more : List Json) :
    ((foldLines tparse lines 0 (initInfo fp pp)).startTime ≠ 0 →
      (foldLines tparse (lines ++ more) 0 (initInfo fp pp)).startTime
        = (foldLines tparse lines 0 (initInfo fp pp)).startTime) ∧
    ((foldLines tparse lines 0 (initInfo fp pp)).isGasTown = true →
      (foldLines tparse (lines ++ more) 0 (initInfo fp pp)).isGasTown = true ∧
      (foldLines tparse (lines ++ more) 0 (initInfo fp pp)).role
        = (foldLines tparse lines 0 (initInfo fp pp)).role ∧
      (foldLines tparse (lines ++ more) 0 (initInfo fp pp)).topic
        = (foldLines tparse lines 0 (initInfo fp pp)).topic) ∧
    (parseSession tparse fp pp lines).1.startTime
      = (earliestQualifying tparse lines 0).getD 0 := by
  refine ⟨?_, ?_, ?_⟩
  · intro h
    rw [foldLines_append]
    exact foldLines_preserve tparse
      (fun j => j.startTime = (foldLines tparse lines 0 (initInfo fp pp)).startTime)
      (fun num' line j hj => by
        have hj' : j.startTime = (foldLines tparse lines 0 (initInfo fp pp)).startTime := hj
        show (stepLine tparse num' line j).startTime = _
        rw [stepLine_startTime_frozen tparse num' line j (hj' ▸ h), hj'])
      more _ _ rfl
  · intro h
    rw [foldLines_append]
    exact foldLines_preserve tparse
      (fun j => j.isGasTown = true ∧
        j.role = (foldLines tparse lines 0 (initInfo fp pp)).role ∧
        j.topic = (foldLines tparse lines 0 (initInfo fp pp)).topic)
      (fun num' line j hj => by
        obtain ⟨hG, hr, htp⟩ := stepLine_beacon_mono tparse num' line j hj.1
        exact ⟨hG, hr.trans hj.2.1, htp.trans hj.2.2⟩)
      more _ _ ⟨h, rfl, rfl⟩
  · exact scanLoop_startTime_earliest tparse lines 0 (initInfo fp pp) rfl

/-- Witness for `parseSession_invariants`: the first-wins part applied
to a concrete beaconed file extended by one junk line. -/
theorem parseSession_invariants_witness :
    (foldLines tparseEx ([junkLineEx, beaconLineEx] ++ [junkLineEx]) 0
        (initInfo "x.jsonl".data "/p".data)).startTime
      = (foldLines tparseEx [junkLineEx, beaconLineEx] 0
        (initInfo "x.jsonl".data "/p".data)).startTime :=
  (parseSession_invariants tparseEx "x.jsonl".data "/p".data
    [junkLineEx, beaconLineEx] [junkLineEx]).1 (by decide)

/-! ### Claim C1 — the early-exit heuristic -/

/-- Characterization of early termination: the scan consumes fewer
lines than the file has exactly when the file splits as
`pre ++ l :: post` with `post` nonempty (so `l` is not the last line),
the absolute line number of `l` is above 20, `l` decodes as a record
(an undecodable line `continue`s past the break check), and processing
up to and including `l` leaves the state satisfying the break
condition. -/
theorem scanLoop_stops_iff (tparse : TimeParse) :
    ∀ (lines : List Json) (num : Nat) (i : SessionInfo),
      (scanLoop tparse lines num i).2 < lines.length ↔
        ∃ pre l post, lines = pre ++ l :: post ∧ post ≠ [] ∧
          20 < num + pre.length + 1 ∧
          (decodeUserEntry l).isSome = true ∧
          stopCond (foldLines tparse (pre ++ [l]) num i) = true := by
  intro lines
  induction lines with
  | nil =>
    intro num i
    constructor
    · intro h
      exact absurd h (by simp [scanLoop])
    · rintro ⟨pre, l, post, hsp, -, -, -, -⟩
      exact absurd hsp (by simp)
  | cons x rest ih =>
    intro num i
    by_cases h1 : num + 1 = 1
    · simp only [scanLoop, if_pos h1, List.length_cons]
      constructor
      · intro h
        obtain ⟨pre', l, post', hsp, hpost, hlen, hdec, hstop⟩ :=
          (ih (num + 1) (stepLine tparse (num + 1) x i)).1 (by omega)
        refine ⟨x :: pre', l, post', by simp [hsp], hpost, ?_, hdec, hstop⟩
        simp only [List.length_cons]
        omega
      · rintro ⟨pre, l, post, hsp, hpost, hlen, hdec, hstop⟩
        cases pre with
        | nil =>
          simp only [List.length_nil] at hlen
          omega
        | cons p pre' =>
          injection hsp with hx hrest
          subst hx
          have hmem := (ih (num + 1) (stepLine tparse (num + 1) x i)).2
            ⟨pre', l, post, hrest, hpost,
              by simp only [List.length_cons] at hlen; omega, hdec, hstop⟩
          omega
    · simp only [scanLoop, if_neg h1, List.length_cons]
      by_cases hbrk : (decodeUserEntry x).isSome = true ∧
          stopCond (stepLine tparse (num + 1) x i) = true ∧ 20 < num + 1
      · rw [if_pos hbrk]
        dsimp only
        constructor
        · intro h
          refine ⟨[], x, rest, rfl, ?_, by simpa using hbrk.2.2, hbrk.1, hbrk.2.1⟩
          intro hr
          rw [hr] at h
          simp at h
        · rintro ⟨pre, l, post, hsp, hpost, -, -, -⟩
          have hlen : (x :: rest).length = pre.length + (l :: post).length := by
            rw [hsp, List.length_append]
          simp only [List.length_cons] at hlen
          have hp : 0 < post.length := List.length_pos.mpr hpost
          omega
      · rw [if_neg hbrk]
        dsimp only
        constructor
        · intro h
          obtain ⟨pre', l, post', hsp, hpost, hlen, hdec, hstop⟩ :=
            (ih (num + 1) (stepLine tparse (num + 1) x i)).1 (by omega)
          refine ⟨x :: pre', l, post', by simp [hsp], hpost, ?_, hdec, hstop⟩
          simp only [List.length_cons]
          omega
        · rintro ⟨pre, l, post, hsp, hpost, hlen, hdec, hstop⟩
          cases pre with
          | nil =>
            injection hsp with hx hrest
            subst hx
            simp only [List.length_nil] at hlen
            exact absurd ⟨hdec, hstop, by omega⟩ hbrk
          | cons p pre' =>
            injection hsp with hx hrest
            subst hx
            have hmem := (ih (num + 1) (stepLine tparse (num + 1) x i)).2
              ⟨pre', l, post, hrest, hpost,
                by simp only [List.length_cons] at hlen; omega, hdec, hstop⟩
            omega

/-- C1 (amended): reading stops before the end of the file exactly when
some line that decodes as a record, at a line number above 20, leaves
the scan with a beacon found and a start time set.  Two corrections to
the claim: the break fires at `lineNum > 20` (so the earliest early
exit is after line 21, not after line 20 as the claim's "at least 20
lines" would have it), and a line whose decode fails `continue`s past
the break check, so the stop can only happen right after a decodable
line.  For every file in which no beacon is ever found, every line is
read to the end of the file. -/
theorem parseSession_early_exit (tparse : TimeParse) (fp pp : Str)
    (lines : List Json) :
    ((parseSession tparse fp pp lines).2 < lines.length ↔
      ∃ pre l post, lines = pre ++ l :: post ∧ post ≠ [] ∧
        20 < pre.length + 1 ∧
        (decodeUserEntry l).isSome = true ∧
        stopCond (foldLines tparse (pre ++ [l]) 0 (initInfo fp pp)) = true) ∧
    ((parseSession tparse fp pp lines).1.isGasTown = false →
      (parseSession tparse fp pp lines).2 = lines.length) := by
  unfold parseSession
  constructor
  · have h := scanLoop_stops_iff tparse lines 0 (initInfo fp pp)
    simpa using h
  · intro hbe
    have hle := scanLoop_le_length tparse lines 0 (initInfo fp pp)
    by_contra hne
    have hlt : (scanLoop tparse lines 0 (initInfo fp pp)).2 < lines.length := by
      omega
    have hstop := scanLoop_early_stopCond tparse lines 0 (initInfo fp pp) hlt
    simp [stopCond, hbe] at hstop

/-- C1 counterexample.  In the 21-line file `file21Ex` (beacon and
parseable timestamp on line 2, undecodable junk elsewhere) the claimed
stop condition — beacon found, start time set, at least 20 lines
examined — already holds after line 20, one line before the end of the
file, yet the scan reads all 21 lines.  The 22-line file `file22Ex`
sharpens it: the condition holds after line 21, i.e. even with more
than 20 lines examined and a line still remaining, and the scan still
reads all 22 lines, because lines 21 and 22 fail to decode and
`continue` past the break check. -/
theorem parseSession_early_exit_cex :
    stopCond (foldLines tparseEx (file21Ex.take 20) 0
        (initInfo "x.jsonl".data "/p".data)) = true ∧
    20 < file21Ex.length ∧
    (parseSession tparseEx "x.jsonl".data "/p".data file21Ex).2
      = file21Ex.length ∧
    stopCond (foldLines tparseEx (file22Ex.take 21) 0
        (initInfo "x.jsonl".data "/p".data)) = true ∧
    21 < file22Ex.length ∧
    (parseSession tparseEx "x.jsonl".data "/p".data file22Ex).2
      = file22Ex.length :=
  ⟨by decide, by decide, by decide, by decide, by decide, by decide⟩

/-- Witness for `parseSession_early_exit`: a beacon-free one-line file
is read to its end. -/
theorem parseSession_early_exit_witness :
    (parseSession tparseEx "x.jsonl".data "/p".data [junkLineEx]).2
      = [junkLineEx].length :=
  (parseSession_early_exit tparseEx "x.jsonl".data "/p".data [junkLineEx]).2
    (by decide)

/-! ### Membership lemmas about the sort model

Claim C7 (filter/sort order-independence as sequence equality) is left
unsettled: `sort.Slice` is unstable, so the tie order of equal start
times — on which the sequence equality turns — is not determined by
this source without embedding Go's internal sorting algorithm.  Only
the order-insensitive membership facts below are used (for C2). -/

/-- Membership in an insertion. -/
theorem mem_insertDesc (x a : SessionInfo) :
    ∀ l : List SessionInfo, a ∈ insertDesc x l ↔ a = x ∨ a ∈ l := by
  intro l
  induction l with
  | nil => simp [insertDesc]
  | cons y t ih =>
    by_cases hc : y.startTime ≤ x.startTime
    · rw [insertDesc, if_pos hc]
      simp [or_comm, or_assoc]
    · rw [insertDesc, if_neg hc]
      simp only [List.mem_cons, ih]
      tauto

/-- Sorting neither adds nor removes descriptors. -/
theorem mem_sortByStartDesc (a : SessionInfo) :
    ∀ l : List SessionInfo, a ∈ sortByStartDesc l ↔ a ∈ l := by
  intro l
  induction l with
  | nil => simp [sortByStartDesc]
  | cons x t ih =>
    rw [sortByStartDesc, mem_insertDesc, ih]
    simp

/-! ### Claim C8 — the error taxonomy of `DiscoverSessions` -/

/-- C8: when the session-storage root does not exist, `DiscoverSessions`
returns an empty result and no error; an error surfaces exactly when the
top-level storage directory itself cannot be enumerated; and a
per-project-directory read failure is skipped — that directory
contributes nothing and the scan does not abort. -/
theorem discoverSessions_errors (tparse : TimeParse) (f : SessionFilter)
    (root : Str) :
    DiscoverSessions tparse f root .absent = .ok [] ∧
    (∀ pd : ProjectsDir,
      (∃ err, DiscoverSessions tparse f root pd = .error err) ↔
        pd = .unreadable) ∧
    (∀ e : DirEnt, e.files = none → scanProjectDir tparse f root e = []) := by
  refine ⟨rfl, ?_, ?_⟩
  · intro pd
    cases pd with
    | absent =>
      constructor
      · rintro ⟨err, h⟩
        cases h
      · intro h
        cases h
    | unreadable =>
      exact ⟨fun _ => rfl, fun _ => ⟨(), rfl⟩⟩
    | present entries =>
      constructor
      · rintro ⟨err, h⟩
        simp [DiscoverSessions] at h
      · intro h
        cases h
  · intro e he
    unfold scanProjectDir
    split
    · rfl
    · simp [he]

/-- Witness for `discoverSessions_errors`: a project directory whose
enumeration fails contributes nothing. -/
theorem discoverSessions_errors_witness :
    scanProjectDir tparseEx filterNoneEx projRootEx ⟨"-p".data, true, none⟩ = [] :=
  (discoverSessions_errors tparseEx filterNoneEx projRootEx).2.2
    ⟨"-p".data, true, none⟩ rfl

/-! ### Claim C2 — the rig filter -/

/-- No step of the scan touches the `path` field. -/
theorem stepLine_path (tparse : TimeParse) (num : Nat) (line : Json)
    (i : SessionInfo) : (stepLine tparse num line i).path = i.path := by
  unfold stepLine
  split
  · split
    · split <;> rfl
    · rfl
  · unfold processUserLine
    split
    · rfl
    · split
      · rename_i e _ _
        rw [(updBeacon_fields e _).2.1, (updId_fields e _).1,
          (updStart_fields tparse e i).2.1]
      · rfl

/-- The descriptor's `path` is the project path it was initialized
with. -/
theorem parseSession_path (tparse : TimeParse) (fp pp : Str)
    (lines : List Json) : (parseSession tparse fp pp lines).1.path = pp :=
  scanLoop_preserve tparse (fun j => j.path = pp)
    (fun num line j hj => by
      have hj' : j.path = pp := hj
      show (stepLine tparse num line j).path = pp
      rw [stepLine_path, hj'])
    lines 0 (initInfo fp pp) rfl

/-- A descriptor a file contributes carries the project path. -/
theorem scanFile_path (tparse : TimeParse) (f : SessionFilter)
    (pdp pp : Str) (file : FileEnt) (i : SessionInfo)
    (h : scanFile tparse f pdp pp file = some i) : i.path = pp := by
  unfold scanFile at h
  split at h
  · cases h
  · split at h
    · cases h
    · split at h
      · cases h
      · dsimp only at h
        split at h
        · rw [← Option.some.inj h]
          exact parseSession_path tparse _ pp _
        · cases h

/-- Every descriptor a project directory contributes carries its decoded
path, and, when the rig filter is non-empty, that path contains the
separator-delimited rig name. -/
theorem scanProjectDir_mem (tparse : TimeParse) (f : SessionFilter)
    (root : Str) (e : DirEnt) (i : SessionInfo)
    (h : i ∈ scanProjectDir tparse f root e) :
    i.path = decodePath e.name ∧
    (f.rig ≠ [] → strContains (decodePath e.name) ('/' :: f.rig ++ ['/']) = true) := by
  unfold scanProjectDir at h
  split at h
  · cases h
  · dsimp only at h
    split at h
    · cases h
    · rename_i hrig
      split at h
      · cases h
      · split at h
        · cases h
        · obtain ⟨file, _, hfile⟩ := List.mem_filterMap.mp h
          refine ⟨scanFile_path tparse f _ _ file i hfile, ?_⟩
          intro hne
          rcases Bool.eq_false_or_eq_true
            (strContains (decodePath e.name) ('/' :: f.rig ++ ['/'])) with hc | hc
          · exact hc
          · exact absurd ⟨hne, hc⟩ hrig

/-- C2 (amended): the rig filter matches the separator-delimited rig
name `"/" ++ rig ++ "/"` as a substring of the decoded project path, not
the bare rig name: (i) every descriptor in a successful discovery result
has a project path containing the delimited rig; (ii) a project
directory whose decoded path lacks the delimited rig is skipped before
its files are opened; (iii) a directory passing the rig and path checks
has its files scanned. -/
theorem discover_rig_filter (tparse : TimeParse) (f : SessionFilter)
    (root : Str) :
    (∀ entries l i, DiscoverSessions tparse f root (.present entries) = .ok l →
      i ∈ l → f.rig ≠ [] →
      strContains i.path ('/' :: f.rig ++ ['/']) = true) ∧
    (∀ e : DirEnt, f.rig ≠ [] →
      strContains (decodePath e.name) ('/' :: f.rig ++ ['/']) = false →
      scanProjectDir tparse f root e = []) ∧
    (∀ e : DirEnt, e.isDir = true →
      ¬(f.rig ≠ [] ∧ strContains (decodePath e.name) ('/' :: f.rig ++ ['/']) = false) →
      ¬(f.path ≠ [] ∧ strContains (decodePath e.name) f.path = false) →
      scanProjectDir tparse f root e
        = (match e.files with
           | none => []
           | some files => files.filterMap
               (scanFile tparse f (root ++ '/' :: e.name) (decodePath e.name)))) := by
  refine ⟨?_, ?_, ?_⟩
  · intro entries l i hok hmem hne
    unfold DiscoverSessions at hok
    dsimp only at hok
    rw [← Except.ok.inj hok] at hmem
    have hmem' : i ∈ sortByStartDesc
        (entries.flatMap (scanProjectDir tparse f root)) := by
      split at hmem
      · exact List.take_subset _ _ hmem
      · exact hmem
    have hmem'' := (mem_sortByStartDesc i _).mp hmem'
    obtain ⟨e, _, hin⟩ := List.mem_flatMap.mp hmem''
    obtain ⟨hpath, hrig⟩ := scanProjectDir_mem tparse f root e i hin
    rw [hpath]
    exact hrig hne
  · intro e hne hcon
    unfold scanProjectDir
    split
    · rfl
    · dsimp only
      rw [if_pos ⟨hne, hcon⟩]
  · intro e hdir hrig hpath
    unfold scanProjectDir
    rw [if_neg (by simp [hdir])]
    dsimp only
    rw [if_neg hrig, if_neg hpath]

/-- Witness for `discover_rig_filter`: the skip part applied at the
concrete project `/tmp/gastown` under rig filter `gastown`. -/
theorem discover_rig_filter_witness :
    scanProjectDir tparseEx rigGastownFilterEx projRootEx dirGastownEx = [] :=
  (discover_rig_filter tparseEx rigGastownFilterEx projRootEx).2.1
    dirGastownEx (by decide) (by decide)

/-- C2 counterexample: with rig filter `gastown`, the project directory
decoding to `/tmp/gastown` — whose decoded path does contain the rig
name `gastown` — is nevertheless not scanned (discovery yields no
sessions), because the code requires the delimited substring
`/gastown/`; the same filesystem under rig filter `tmp` (where `/tmp/`
is such a substring) yields the project's descriptor. -/
theorem discover_rig_cex :
    strContains (decodePath "-tmp-gastown".data) "gastown".data = true ∧
    DiscoverSessions tparseEx rigGastownFilterEx projRootEx
      (.present [dirGastownEx]) = .ok [] ∧
    DiscoverSessions tparseEx rigTmpFilterEx projRootEx
      (.present [dirGastownEx]) = .ok [infoEx] :=
  ⟨by decide, by rfl, by rfl⟩

end Gastown
